import Mathlib

/-!
Verification of the job-orchestration backend (`server.js`, the Gemini analysis
adapter and the Rev transcription adapter) against its natural-language
specification.  The JavaScript source is shallowly embedded: pure control flow
becomes Lean functions, the in-memory job record becomes a structure, the
asynchronous event interleavings of the single-threaded event loop become an
explicit small-step machine over per-job event traces, and fallible operations
return `Except`/`Option`.  Definitions come first, theorems after.
-/

/-! ## Definitions -/

/-! ### JavaScript string helpers

`jsStartsWith s p` embeds `s.startsWith(p)` from JavaScript; it is written
directly over character lists so that it evaluates by kernel reduction. -/

def startsAux : List Char → List Char → Bool
  | _, [] => true
  | [], _ :: _ => false
  | c :: cs, d :: ds => c == d && startsAux cs ds

def jsStartsWith (s p : String) : Bool :=
  startsAux s.data p.data

/-! ### Data model (the job record of `server.js`)

`server.js` keeps jobs in an in-memory table; each record carries a status
string, the transcript, the analysis result, the selected books, the temporary
file path, a user-facing error message and the per-job access token.  The
status strings that the code ever writes are `transcribing`, `transcribed`,
`analysis_started`, `finished` and `error`; the constructor `created` is
included so that the spec's claim about a `created` state can be stated. -/

inductive JStatus where
  | created
  | transcribing
  | transcribed
  | analysis_started
  | finished
  | error
deriving DecidableEq, Repr

def statusStr : JStatus → String
  | .created => "created"
  | .transcribing => "transcribing"
  | .transcribed => "transcribed"
  | .analysis_started => "analysis_started"
  | .finished => "finished"
  | .error => "error"

/-- The value returned by `Gemini.getResponse`: `{ response, error }`,
either field may be `null`. -/
structure GeminiResult where
  response : Option String
  error : Option String
deriving DecidableEq, Repr

/-- One entry of `selectedBooks`: `{ title, text }` where `text` is a storage
locator that `getAnalysis` reads with `fs.readFile`. -/
structure Book where
  title : String
  text : String
deriving DecidableEq, Repr

/-- The job record created by `app.post('/start')` (server.js lines 191-200). -/
structure Job where
  status : JStatus
  transcript : Option String
  analysis : Option GeminiResult
  selectedBooks : List Book
  filePath : Option String
  error : Option String
  accessToken : String
deriving DecidableEq, Repr

/-- The body of the `GET /status/:jobId` response: `{ status, analysis, error }`. -/
structure StatusResponse where
  status : String
  analysis : Option GeminiResult
  error : Option String
deriving DecidableEq, Repr

/-- `app.get('/status/:jobId')` (server.js lines 269-276). -/
def statusEndpoint (j : Job) : StatusResponse :=
  { status := statusStr j.status, analysis := j.analysis, error := j.error }

/-- The fresh job record inserted by `app.post('/start')`: the job starts life
with status `transcribing`, empty book list, no transcript/analysis/error, and
the uploaded file's path held in `filePath`. -/
def initialJob (accessToken filePath : String) : Job :=
  { status := .transcribing
    transcript := none
    analysis := none
    selectedBooks := []
    filePath := some filePath
    error := none
    accessToken := accessToken }

/-! ### Access Control Gate (`authorizeJob`, server.js lines 105-121) -/

inductive AuthOutcome where
  | notFound
  | forbidden
  | ok (j : Job)
deriving DecidableEq, Repr

/-- `authorizeJob`: look the job up; absent job gives 404; then a missing
header, or any header other than `Bearer <accessToken>`, gives 403; otherwise
the job is attached to the request.  (A JS `undefined` header is `none`; an
empty-string header is falsy in JS but also fails the equality test, so
modelling it as `some ""` gives the same outcome.) -/
def authorizeJob (store : String → Option Job) (jobId : String)
    (authHeader : Option String) : AuthOutcome :=
  match store jobId with
  | none => .notFound
  | some job =>
    match authHeader with
    | none => .forbidden
    | some h => if h = "Bearer " ++ job.accessToken then .ok job else .forbidden

/-! ### Analysis Adapter (`Gemini`, the first unnamed module)

`Gemini` holds a hard-coded pool of six API keys.  `getResponse` tries the
keys in order; a successful call returns `{ response: text, error: null }`;
when a key fails it moves to the next, and when the *last* key fails it
returns (not throws) `{ response: null, error: "Gemini API error: <msg>" }`.
`provider i` is the outcome of calling the provider with key number `i`. -/

def geminiKeyCount : Nat := 6

def getResponseFrom (provider : Nat → Except String String) :
    Nat → Nat → Option GeminiResult
  | _, 0 => none
  | i, remaining + 1 =>
    match provider i with
    | .ok text => some { response := some text, error := none }
    | .error msg =>
      if remaining = 0 then
        some { response := none, error := some ("Gemini API error: " ++ msg) }
      else getResponseFrom provider (i + 1) remaining

def getResponse (provider : Nat → Except String String) : Option GeminiResult :=
  getResponseFrom provider 0 geminiKeyCount

/-! ### Transcription Adapter (`Transcript.generate`, the second unnamed module)

`generate` submits the file, then loops: sleep 7 s, add 7 to the elapsed
counter, fetch the provider job details; status `transcribed` resolves the
transcript; statuses `failed`/`revoked`/`error` throw with the provider's
failure detail; otherwise, once the elapsed counter exceeds `timeoutS`
(constructor default 900) it throws a timeout error.  `details k` is the
provider job-details object fetched on the `k`-th poll (0-based); the loop is
written with an explicit fuel so that its termination is a theorem rather than
an assumption. -/

structure RevJobDetails where
  status : String
  failure_detail : Option String
  failure : Option String
deriving DecidableEq, Repr

/-- JS `a || b` on a nullable string `a` and a string `b`: `null`/`undefined`
and the empty string are falsy. -/
def jsOrElse (a : Option String) (b : String) : String :=
  match a with
  | some s => if s = "" then b else s
  | none => b

def revHardFailure (st : String) : Bool :=
  st == "failed" || st == "revoked" || st == "error"

def revTerminal (st : String) : Bool :=
  st == "transcribed" || revHardFailure st

inductive RevOutcome where
  | transcriptReady
  | hardFailure (status reason : String)
  | timedOut
deriving DecidableEq, Repr

/-- The polling loop of `Transcript.generate`.  On the `k`-th iteration the
elapsed counter reads `7 * (k + 1)` seconds; the checks run in source order:
success status, hard-failure status, then the `elapsed > timeoutS` guard. -/
def pollLoop (details : Nat → RevJobDetails) (timeoutS : Nat) :
    Nat → Nat → Option RevOutcome
  | 0, _ => none
  | fuel + 1, k =>
    let d := details k
    if d.status == "transcribed" then some .transcriptReady
    else if revHardFailure d.status then
      some (.hardFailure d.status
        (jsOrElse d.failure_detail (jsOrElse d.failure "unknown reason")))
    else if timeoutS < 7 * (k + 1) then some .timedOut
    else pollLoop details timeoutS fuel (k + 1)

def revDefaultTimeoutS : Nat := 900

/-- Fuel sufficient for the loop to reach its timeout guard. -/
def generatePollFuel (timeoutS : Nat) : Nat := timeoutS / 7 + 1

/-- The polling phase of `Transcript.generate` as a whole. -/
def generatePoll (details : Nat → RevJobDetails) (timeoutS : Nat) : Option RevOutcome :=
  pollLoop details timeoutS (generatePollFuel timeoutS) 0

/-! ### Orchestrator (`server.js`)

The external collaborators a single job interacts with are collected in `Env`:
`fsRead` is `fs.readFile` on a book locator, `provider i` the Gemini call
under key `i`.  A job's runtime state is the record plus two bookkeeping
facts of the event loop: the books captured by an in-flight `getAnalysis`
call, and whether the `/start` handler's `try` block has concluded. -/

structure Env where
  fsRead : String → Except String String
  provider : Nat → Except String String

/-- JS truthiness of `job.transcript`: `null` and `""` are falsy. -/
def transcriptTruthy (j : Job) : Bool :=
  match j.transcript with
  | none => false
  | some t => t != ""

/-- The trigger condition of `tryStartAnalysis` (server.js line 132):
`job.transcript && Array.isArray(job.selectedBooks) && job.selectedBooks.length > 0`.
In this typed model `selectedBooks` is always an array. -/
def ready (j : Job) : Bool :=
  transcriptTruthy j && !j.selectedBooks.isEmpty

/-- The early-return guard of `tryStartAnalysis` (server.js line 130):
`job.status.startsWith('analysis') || job.status === 'finished' || job.status === 'error'`. -/
def analysisGuardBlocked (st : JStatus) : Bool :=
  jsStartsWith (statusStr st) "analysis" || statusStr st == "finished"
    || statusStr st == "error"

/-- `Promise.all(selectedBooks.map(book => fs.readFile(book.text, 'utf8')))`:
succeeds with all texts, or fails as soon as any read fails. -/
def readBooks (fsRead : String → Except String String) : List Book → Except String (List String)
  | [] => .ok []
  | b :: rest =>
    match fsRead b.text with
    | .error e => .error e
    | .ok t =>
      match readBooks fsRead rest with
      | .error e => .error e
      | .ok ts => .ok (t :: ts)

/-- The body of `getAnalysis` (server.js lines 146-170) applied to a job, with
`bs` the book list captured when the call was made: read the book files, call
Gemini, and on success store the result, mark the job finished and clear the
transcript; any thrown error (in practice a failed book read) is caught and
maps the job to `error` with the generic analysis message.  `getResponse`
never throws — even total pool exhaustion *returns* an in-band error object —
so the catch branch is reached only from the book reads. -/
def settleAnalysis (env : Env) (bs : List Book) (j : Job) : Job :=
  match readBooks env.fsRead bs with
  | .error _ =>
    { j with status := .error, error := some "An error occurred during AI analysis." }
  | .ok _ =>
    match getResponse env.provider with
    | some r => { j with status := .finished, analysis := some r, transcript := none }
    | none => { j with status := .finished, analysis := none, transcript := none }

/-- A job's runtime state: the stored record plus event-loop bookkeeping.
`pendingBooks` is `some bs` exactly while a `getAnalysis` call is in flight
(`bs` being the `selectedBooks` it captured synchronously at submission);
`trDone` records whether the transcription promise has settled;
`finallyPending` records that the `/start` handler's `finally` cleanup will
run when the in-flight analysis settles (because the handler `await`s
`tryStartAnalysis` before its `finally`). -/
structure Sys where
  job : Job
  pendingBooks : Option (List Book)
  trDone : Bool
  finallyPending : Bool
deriving DecidableEq, Repr

/-- Runtime state of a freshly created job. -/
def initSys (accessToken filePath : String) : Sys :=
  { job := initialJob accessToken filePath
    pendingBooks := none
    trDone := false
    finallyPending := false }

/-- `tryStartAnalysis` (server.js lines 127-137) up to its suspension point:
if the guard lets it through and the trigger condition holds, it sets
`status = 'analysis_started'` and invokes `getAnalysis` — synchronously, with
no `await` between the check and the write.  The returned flag records that an
analysis submission (a `getAnalysis` call) was made; the submitted call's
captured book list goes to `pendingBooks`. -/
def tryStartAnalysis (s : Sys) : Sys × Bool :=
  if analysisGuardBlocked s.job.status then (s, false)
  else if ready s.job then
    ({ s with job := { s.job with status := .analysis_started },
              pendingBooks := some s.job.selectedBooks }, true)
  else (s, false)

/-- Settlement of an in-flight `getAnalysis` call, applying `settleAnalysis`
to the current record with the captured book list; if the `/start` handler is
waiting on this call, its `finally` then deletes the uploaded file and clears
`filePath` (the trace machine takes the unlink to succeed; the fallible unlink
is modelled separately in `finallyCleanup`). -/
def settleStep (env : Env) (s : Sys) : Sys × Bool :=
  match s.pendingBooks with
  | none => (s, false)
  | some bs =>
    let j1 := settleAnalysis env bs s.job
    let j2 := if s.finallyPending then { j1 with filePath := none } else j1
    ({ job := j2, pendingBooks := none, trDone := s.trDone, finallyPending := false }, false)

/-- The `/start` handler's continuation when `transcriptClient.generate`
resolves (server.js lines 224-228, 236-243): store the transcript, set status
`transcribed`, call `tryStartAnalysis`; if that submitted an analysis the
`finally` is deferred until the analysis settles, otherwise it runs now and
clears the file. -/
def transcriptionDoneStep (s : Sys) (text : String) : Sys × Bool :=
  let s1 : Sys :=
    { s with job := { s.job with transcript := some text, status := .transcribed },
             trDone := true }
  let r := tryStartAnalysis s1
  if r.2 then ({ r.1 with finallyPending := true }, true)
  else ({ r.1 with job := { r.1.job with filePath := none } }, false)

/-- The `/start` handler's catch-plus-finally when `generate` rejects
(server.js lines 229-243): status `error`, the generic transcription message,
and the file cleanup. -/
def transcriptionFailedStep (s : Sys) : Sys × Bool :=
  let j1 : Job :=
    { s.job with status := .error, error := some "Transcription failed.",
                 filePath := none }
  ({ s with job := j1, trDone := true }, false)

/-- `app.post('/booksselection/:jobId')` after authorization (server.js lines
256-266): overwrite `selectedBooks` with `req.body.selectedBooks || []`,
answer `200`, then run `tryStartAnalysis`.  The third component is the HTTP
status sent (always 200, sent before the trigger runs). -/
def booksSelectionPost (s : Sys) (body : Option (List Book)) : Sys × Bool × Nat :=
  let s1 : Sys := { s with job := { s.job with selectedBooks := body.getD [] } }
  let r := tryStartAnalysis s1
  (r.1, r.2, 200)

/-- The events that can reach a live job after creation: settlement of its
one transcription call (success or failure), an authorized book-selection
request, and settlement of an in-flight analysis call. -/
inductive Event where
  | transcriptionDone (text : String)
  | transcriptionFailed
  | booksSubmitted (body : Option (List Book))
  | analysisSettled
deriving DecidableEq, Repr

/-- One event-loop turn for a job.  The flag records whether this turn
submitted an analysis (invoked `getAnalysis`). -/
def step (env : Env) (s : Sys) : Event → Sys × Bool
  | .transcriptionDone text => transcriptionDoneStep s text
  | .transcriptionFailed => transcriptionFailedStep s
  | .booksSubmitted body =>
    let r := booksSelectionPost s body
    (r.1, r.2.1)
  | .analysisSettled => settleStep env s

/-- Which events can actually occur in a state: the single transcription
promise settles exactly once, and an analysis settlement exists only while an
analysis call is in flight.  Book-selection requests can arrive at any time,
any number of times. -/
def allowed (s : Sys) : Event → Bool
  | .transcriptionDone _ => !s.trDone
  | .transcriptionFailed => !s.trDone
  | .booksSubmitted _ => true
  | .analysisSettled => s.pendingBooks.isSome

/-- A realizable event trace for one job. -/
def validTrace (env : Env) : Sys → List Event → Bool
  | _, [] => true
  | s, e :: es => allowed s e && validTrace env (step env s e).1 es

/-- Run a trace, counting analysis submissions. -/
def runJob (env : Env) : Sys → List Event → Sys × Nat
  | s, [] => (s, 0)
  | s, e :: es =>
    let r := step env s e
    let rr := runJob env r.1 es
    (rr.1, (if r.2 then 1 else 0) + rr.2)

/-- The reachable-state invariant of one job, indexed by how many analysis
submissions have been made.  Each disjunct is one phase of the lifecycle:
awaiting transcription; transcription failed; transcribed and idle; analysis
in flight; finished; analysis failed. -/
def InvState (s : Sys) (n : Nat) : Prop :=
  (n = 0 ∧ s.trDone = false ∧ s.job.status = .transcribing ∧
    s.job.transcript = none ∧ s.job.analysis = none ∧ s.pendingBooks = none)
  ∨ (n = 0 ∧ s.trDone = true ∧ s.job.status = .error ∧
    s.job.transcript = none ∧ s.job.analysis = none ∧ s.pendingBooks = none)
  ∨ (n = 0 ∧ s.trDone = true ∧ s.job.status = .transcribed ∧
    (∃ t, s.job.transcript = some t) ∧
    (transcriptTruthy s.job = true → s.job.selectedBooks = []) ∧
    s.job.analysis = none ∧ s.pendingBooks = none)
  ∨ (n = 1 ∧ s.trDone = true ∧ s.job.status = .analysis_started ∧
    transcriptTruthy s.job = true ∧
    (∃ bs, s.pendingBooks = some bs ∧ bs ≠ []) ∧ s.job.analysis = none)
  ∨ (n = 1 ∧ s.trDone = true ∧ s.job.status = .finished ∧
    (∃ r, s.job.analysis = some r) ∧ s.pendingBooks = none ∧
    s.job.transcript = none)
  ∨ (n = 1 ∧ s.trDone = true ∧ s.job.status = .error ∧
    transcriptTruthy s.job = true ∧ s.pendingBooks = none ∧ s.job.analysis = none)

/-- The elementary forward transitions of the job lifecycle as implemented:
`transcribing → transcribed → analysis_started → finished`, with `error`
reachable from each non-terminal state. -/
inductive StatusStep : JStatus → JStatus → Prop
  | toTranscribed : StatusStep .transcribing .transcribed
  | toAnalysis : StatusStep .transcribed .analysis_started
  | toFinished : StatusStep .analysis_started .finished
  | transcribingErr : StatusStep .transcribing .error
  | transcribedErr : StatusStep .transcribed .error
  | analysisErr : StatusStep .analysis_started .error

/-- Position of a status along the forward lattice (used to state that the
observable status never moves backwards and is never revisited). -/
def statusRank : JStatus → Nat
  | .created => 0
  | .transcribing => 1
  | .transcribed => 2
  | .analysis_started => 3
  | .finished => 4
  | .error => 5

/-! ### File cleanup (`/start`'s `finally` and the TTL eviction timer)

`disk` abstracts the uploads directory as the list of temporary file paths
that currently exist; `fs.unlink` succeeds exactly when the path exists and
rejects (ENOENT) otherwise. -/

/-- The `finally` block of `app.post('/start')` (server.js lines 236-243):
`await fs.unlink(filePath)` followed by `filePath = null` — with **no** catch,
so a failing unlink rejects out of the handler and the `filePath = null` line
is skipped.  Returns the job, the disk, and whether a cleanup fault escaped. -/
def finallyCleanup (disk : List String) (j : Job) : Job × List String × Bool :=
  match j.filePath with
  | none => (j, disk, false)
  | some p =>
    if p ∈ disk then
      ({ j with filePath := none }, disk.filter (fun q => q != p), false)
    else (j, disk, true)

/-- The TTL eviction timer's cleanup (server.js lines 202-210):
`fs.unlink(filePath).catch(err => console.error(...))` — a failing unlink is
caught and only logged, so no fault ever escapes this path. -/
def evictionUnlink (disk : List String) (p : String) : List String × Bool :=
  if p ∈ disk then (disk.filter (fun q => q != p), false) else (disk, false)

/-- The `try`/`catch` part of the asynchronous tail of `app.post('/start')`
after the 202 response (server.js lines 216-235), run with no interleaving:
on success, store the transcript and run the awaited `tryStartAnalysis`
(whose `getAnalysis`, when submitted, settles before the handler resumes);
on rejection, the `catch`. -/
def startTailTry (env : Env) (s : Sys) : Except String String → Sys
  | .ok text =>
    let sa : Sys :=
      { s with job := { s.job with transcript := some text, status := .transcribed },
               trDone := true }
    let r := tryStartAnalysis sa
    if r.2 then
      match r.1.pendingBooks with
      | some bs =>
        { r.1 with job := settleAnalysis env bs r.1.job, pendingBooks := none }
      | none => r.1
    else r.1
  | .error _ =>
    { s with job := { s.job with status := .error,
                                 error := some "Transcription failed." },
             trDone := true }

/-- The whole asynchronous tail of `app.post('/start')` (server.js lines
216-243): the `try`/`catch`, then the `finally` with its fallible unlink.
`g` is the settlement of `transcriptClient.generate`. -/
def startTail (env : Env) (disk : List String) (s : Sys)
    (g : Except String String) : Sys × List String × Bool :=
  let s1 := startTailTry env s g
  let c := finallyCleanup disk s1.job
  ({ s1 with job := c.1 }, c.2.1, c.2.2)

/-! ### Concrete instances used by counterexamples and witnesses -/

/-- An environment in which every book read succeeds and every Gemini key
fails with the same quota message. -/
def envAllFail : Env :=
  { fsRead := fun _ => .ok "book text"
    provider := fun _ => .error "quota exceeded" }

/-- An environment in which every book read and the first Gemini call succeed. -/
def envOk : Env :=
  { fsRead := fun _ => .ok "book text"
    provider := fun _ => .ok "the report" }

/-- A job whose analysis stage is in flight: transcript present, one book
selected. -/
def jobCex : Job :=
  { status := .analysis_started
    transcript := some "hello there"
    analysis := none
    selectedBooks := [{ title := "Book X", text := "x.txt" }]
    filePath := none
    error := none
    accessToken := "tok" }

/-- A one-entry job store for exercising `authorizeJob`. -/
def storeCex : String → Option Job :=
  fun id => if id = "job-1" then some jobCex else none

def bookX : Book := { title := "Book X", text := "x.txt" }

/-- A trace that drives a job through the full happy path: books first, then
transcription, then analysis settlement. -/
def traceOk : List Event :=
  [.booksSubmitted (some [bookX]), .transcriptionDone "hello", .analysisSettled]

/-- A job whose temporary file path points at a file that no longer exists on
disk (used to exercise the fallible cleanup). -/
def jobMissingFile : Job := { jobCex with filePath := some "gone.tmp" }

/-! ## Theorems -/

/-! ### Helper lemmas about the adapters -/

theorem getResponseFrom_isSome (provider : Nat → Except String String) :
    ∀ r i, r ≠ 0 → (getResponseFrom provider i r).isSome = true := by
  intro r
  induction r with
  | zero => intro i h; exact absurd rfl h
  | succ n ih =>
    intro i _
    rw [getResponseFrom]
    cases provider i with
    | ok text => rfl
    | error msg =>
      by_cases hn : n = 0
      · simp [hn]
      · simpa [hn] using ih (i + 1) hn

theorem getResponse_isSome (provider : Nat → Except String String) :
    (getResponse provider).isSome = true :=
  getResponseFrom_isSome provider geminiKeyCount 0 (by decide)

/-- If every key in the pool fails, `getResponse` returns the in-band error
object built from the **last** attempt's message (key index 5). -/
theorem getResponse_all_keys_fail (provider : Nat → Except String String)
    (msgs : Nat → String) (hall : ∀ i, provider i = .error (msgs i)) :
    getResponse provider =
      some { response := none, error := some ("Gemini API error: " ++ msgs 5) } := by
  simp only [getResponse, geminiKeyCount]
  rw [getResponseFrom, hall 0]
  simp only [Nat.add_eq, reduceIte, Nat.succ_ne_zero]
  rw [getResponseFrom, hall 1]
  simp only [reduceIte, Nat.succ_ne_zero]
  rw [getResponseFrom, hall 2]
  simp only [reduceIte, Nat.succ_ne_zero]
  rw [getResponseFrom, hall 3]
  simp only [reduceIte, Nat.succ_ne_zero]
  rw [getResponseFrom, hall 4]
  simp only [reduceIte, Nat.succ_ne_zero]
  rw [getResponseFrom, hall 5]
  simp

theorem readBooks_ok (fsRead : String → Except String String) :
    ∀ bs : List Book, (∀ b ∈ bs, ∃ t, fsRead b.text = .ok t) →
      ∃ ts, readBooks fsRead bs = .ok ts := by
  intro bs
  induction bs with
  | nil => intro _; exact ⟨[], rfl⟩
  | cons b rest ih =>
    intro h
    obtain ⟨t, ht⟩ := h b (List.mem_cons_self b rest)
    obtain ⟨ts, hts⟩ := ih (fun x hx => h x (List.mem_cons_of_mem b hx))
    exact ⟨t :: ts, by rw [readBooks, ht, hts]⟩

theorem pollLoop_total (details : Nat → RevJobDetails) (timeoutS : Nat) :
    ∀ fuel k, 7 * k ≤ timeoutS → timeoutS < 7 * (k + fuel) →
      (pollLoop details timeoutS fuel k).isSome = true := by
  intro fuel
  induction fuel with
  | zero => intro k h1 h2; omega
  | succ n ih =>
    intro k h1 h2
    rw [pollLoop]
    by_cases hs : (details k).status == "transcribed"
    · simp [hs]
    · by_cases hf : revHardFailure (details k).status
      · simp [hs, hf]
      · by_cases ht : timeoutS < 7 * (k + 1)
        · simp [hs, hf, ht]
        · have hrec := ih (k + 1) (by omega) (by omega)
          simpa [hs, hf, ht] using hrec

theorem pollLoop_timeout_of_no_terminal (details : Nat → RevJobDetails) (timeoutS : Nat)
    (hnt : ∀ m, m ≤ timeoutS / 7 → revTerminal (details m).status = false) :
    ∀ fuel k, 7 * k ≤ timeoutS → timeoutS < 7 * (k + fuel) →
      pollLoop details timeoutS fuel k = some .timedOut := by
  intro fuel
  induction fuel with
  | zero => intro k h1 h2; omega
  | succ n ih =>
    intro k h1 h2
    have hk : k ≤ timeoutS / 7 := by omega
    have hterm := hnt k hk
    have hs : ((details k).status == "transcribed") = false := by
      simp only [revTerminal, Bool.or_eq_false_iff] at hterm
      exact hterm.1
    have hf : revHardFailure (details k).status = false := by
      simp only [revTerminal, Bool.or_eq_false_iff] at hterm
      exact hterm.2
    rw [pollLoop]
    by_cases ht : timeoutS < 7 * (k + 1)
    · simp [hs, hf, ht]
    · have hrec := ih (k + 1) (by omega) (by omega)
      simpa [hs, hf, ht] using hrec

theorem pollLoop_timeout_no_terminal (details : Nat → RevJobDetails) (timeoutS : Nat) :
    ∀ fuel k, pollLoop details timeoutS fuel k = some .timedOut →
      ∀ m, k ≤ m → m ≤ timeoutS / 7 → revTerminal (details m).status = false := by
  intro fuel
  induction fuel with
  | zero => intro k h; simp [pollLoop] at h
  | succ n ih =>
    intro k h m hkm hm
    rw [pollLoop] at h
    by_cases hs : (details k).status == "transcribed"
    · simp [hs] at h
    · by_cases hf : revHardFailure (details k).status
      · simp [hs, hf] at h
      · by_cases ht : timeoutS < 7 * (k + 1)
        · have hmk : m = k := by omega
          subst hmk
          simp [revTerminal, hs, hf]
        · simp only [hs, hf, ht, Bool.false_eq_true, if_false, reduceIte] at h
          rcases Nat.eq_or_lt_of_le hkm with heq | hlt
          · subst heq
            simp [revTerminal, hs, hf]
          · exact ih (k + 1) h m hlt hm

/-! ### Helper lemmas about the orchestration machine -/

/-- On the status values of this program, the `startsWith('analysis')`-based
guard blocks exactly the `analysis_started`, `finished` and `error` states. -/
theorem analysisGuardBlocked_iff (st : JStatus) :
    analysisGuardBlocked st = true ↔
      (st = .analysis_started ∨ st = .finished ∨ st = .error) := by
  cases st <;> decide

theorem ready_true_elim {j : Job} (h : ready j = true) :
    transcriptTruthy j = true ∧ j.selectedBooks ≠ [] := by
  simp only [ready, Bool.and_eq_true, Bool.not_eq_true'] at h
  refine ⟨h.1, ?_⟩
  intro hnil
  rw [hnil] at h
  simp at h

theorem ready_false_books {j : Job} (h : ready j = false)
    (ht : transcriptTruthy j = true) : j.selectedBooks = [] := by
  simp only [ready, ht, Bool.true_and, Bool.not_eq_false'] at h
  exact List.isEmpty_iff.mp h

theorem tryStartAnalysis_blocked {s : Sys}
    (h : analysisGuardBlocked s.job.status = true) :
    tryStartAnalysis s = (s, false) := by
  simp [tryStartAnalysis, h]

theorem tryStartAnalysis_idle {s : Sys}
    (h : analysisGuardBlocked s.job.status = false) (hr : ready s.job = false) :
    tryStartAnalysis s = (s, false) := by
  simp [tryStartAnalysis, h, hr]

theorem tryStartAnalysis_fires {s : Sys}
    (h : analysisGuardBlocked s.job.status = false) (hr : ready s.job = true) :
    tryStartAnalysis s =
      ({ s with job := { s.job with status := .analysis_started },
                pendingBooks := some s.job.selectedBooks }, true) := by
  simp [tryStartAnalysis, h, hr]



/-! Shape lemmas: the result of each event handler, by case on its guards. -/

theorem analysisGuardBlocked_created : analysisGuardBlocked .created = false := by decide

theorem analysisGuardBlocked_transcribing : analysisGuardBlocked .transcribing = false := by decide

theorem analysisGuardBlocked_transcribed : analysisGuardBlocked .transcribed = false := by decide

theorem analysisGuardBlocked_started : analysisGuardBlocked .analysis_started = true := by decide

theorem analysisGuardBlocked_finished : analysisGuardBlocked .finished = true := by decide

theorem analysisGuardBlocked_error : analysisGuardBlocked .error = true := by decide

theorem transcriptTruthy_setBooks (j : Job) (bs : List Book) :
    transcriptTruthy { j with selectedBooks := bs } = transcriptTruthy j := rfl

theorem transcriptionDoneStep_fires (s : Sys) (text : String)
    (h1 : text ≠ "") (h2 : s.job.selectedBooks ≠ []) :
    transcriptionDoneStep s text =
      ({ job := { s.job with transcript := some text, status := .analysis_started }
         pendingBooks := some s.job.selectedBooks
         trDone := true
         finallyPending := true }, true) := by
  simp [transcriptionDoneStep, tryStartAnalysis, analysisGuardBlocked_transcribed,
    ready, transcriptTruthy, h1, h2]

theorem transcriptionDoneStep_idle (s : Sys) (text : String)
    (hr : text = "" ∨ s.job.selectedBooks = []) :
    transcriptionDoneStep s text =
      ({ job := { s.job with transcript := some text, status := .transcribed,
                             filePath := none }
         pendingBooks := s.pendingBooks
         trDone := true
         finallyPending := s.finallyPending }, false) := by
  rcases hr with hr | hr <;>
    simp [transcriptionDoneStep, tryStartAnalysis, analysisGuardBlocked_transcribed,
      ready, transcriptTruthy, hr]

theorem booksSelectionPost_blocked (s : Sys) (body : Option (List Book))
    (h : analysisGuardBlocked s.job.status = true) :
    booksSelectionPost s body =
      ({ s with job := { s.job with selectedBooks := body.getD [] } }, false, 200) := by
  simp [booksSelectionPost, tryStartAnalysis, h]

theorem booksSelectionPost_fires (s : Sys) (body : Option (List Book))
    (h : analysisGuardBlocked s.job.status = false)
    (ht : transcriptTruthy s.job = true) (hb : body.getD [] ≠ []) :
    booksSelectionPost s body =
      ({ job := { s.job with selectedBooks := body.getD [],
                             status := .analysis_started }
         pendingBooks := some (body.getD [])
         trDone := s.trDone
         finallyPending := s.finallyPending }, true, 200) := by
  simp [booksSelectionPost, tryStartAnalysis, h, ready, transcriptTruthy_setBooks, ht, hb]

theorem booksSelectionPost_idle (s : Sys) (body : Option (List Book))
    (h : analysisGuardBlocked s.job.status = false)
    (hr : transcriptTruthy s.job = false ∨ body.getD [] = []) :
    booksSelectionPost s body =
      ({ s with job := { s.job with selectedBooks := body.getD [] } }, false, 200) := by
  rcases hr with hr | hr <;>
    simp [booksSelectionPost, tryStartAnalysis, h, ready, transcriptTruthy_setBooks, hr]

theorem settleStep_none (env : Env) (s : Sys) (hpb : s.pendingBooks = none) :
    settleStep env s = (s, false) := by
  simp [settleStep, hpb]

theorem settleStep_some (env : Env) (s : Sys) (bs : List Book)
    (hpb : s.pendingBooks = some bs) :
    settleStep env s =
      ({ job := if s.finallyPending
            then { settleAnalysis env bs s.job with filePath := none }
            else settleAnalysis env bs s.job
         pendingBooks := none
         trDone := s.trDone
         finallyPending := false }, false) := by
  simp only [settleStep, hpb]

theorem settleAnalysis_read_error (env : Env) (bs : List Book) (j : Job)
    (e : String) (h : readBooks env.fsRead bs = .error e) :
    settleAnalysis env bs j =
      { j with status := .error, error := some "An error occurred during AI analysis." } := by
  simp [settleAnalysis, h]

theorem settleAnalysis_ok (env : Env) (bs : List Book) (j : Job)
    (ts : List String) (r : GeminiResult)
    (h : readBooks env.fsRead bs = .ok ts) (h2 : getResponse env.provider = some r) :
    settleAnalysis env bs j =
      { j with status := .finished, analysis := some r, transcript := none } := by
  simp [settleAnalysis, h, h2]

theorem step_done (env : Env) (s : Sys) (text : String) :
    step env s (.transcriptionDone text) = transcriptionDoneStep s text := rfl

theorem step_failed (env : Env) (s : Sys) :
    step env s .transcriptionFailed = transcriptionFailedStep s := rfl

theorem step_books (env : Env) (s : Sys) (body : Option (List Book)) :
    step env s (.booksSubmitted body) =
      ((booksSelectionPost s body).1, (booksSelectionPost s body).2.1) := rfl

theorem step_settle (env : Env) (s : Sys) :
    step env s .analysisSettled = settleStep env s := rfl

theorem transcriptTruthy_congr (j' j : Job) (h : j'.transcript = j.transcript) :
    transcriptTruthy j' = transcriptTruthy j := by
  simp [transcriptTruthy, h]

theorem transcriptTruthy_val (j : Job) (t : String) (h : j.transcript = some t) :
    transcriptTruthy j = (t != "") := by
  simp [transcriptTruthy, h]

theorem invState_step (env : Env) (s : Sys) (n : Nat) (e : Event)
    (hInv : InvState s n) (hAl : allowed s e = true) :
    InvState (step env s e).1 (n + (if (step env s e).2 then 1 else 0)) := by
  unfold InvState at hInv
  cases e with
  | transcriptionDone text =>
    have htd : s.trDone = false := by simpa [allowed] using hAl
    rcases hInv with ⟨hn, _, hst, htx, han, hpb⟩ |
      ⟨_, htr, _⟩ | ⟨_, htr, _, _, _, _, _⟩ | ⟨_, htr, _⟩ | ⟨_, htr, _⟩ | ⟨_, htr, _⟩
    · -- class A: the one transcription settles successfully
      subst hn
      rcases Decidable.em (text = "" ∨ s.job.selectedBooks = []) with hcase | hcase
      · rw [step_done, transcriptionDoneStep_idle s text hcase]
        unfold InvState
        refine Or.inr (Or.inr (Or.inl ?_))
        refine ⟨by simp, by simp, by simp, ⟨text, by simp⟩, ?_, by simp [han], by simp [hpb]⟩
        intro htt
        rw [transcriptTruthy_val _ text (by simp)] at htt
        rcases hcase with hc | hc
        · simp [hc] at htt
        · simp [hc]
      · push_neg at hcase
        rw [step_done, transcriptionDoneStep_fires s text hcase.1 hcase.2]
        unfold InvState
        refine Or.inr (Or.inr (Or.inr (Or.inl ?_)))
        refine ⟨by simp, by simp, by simp, ?_, ?_, by simp [han]⟩
        · rw [transcriptTruthy_val _ text (by simp)]
          simp [hcase.1]
        · exact ⟨s.job.selectedBooks, by simp, hcase.2⟩
    · rw [htr] at htd; simp at htd
    · rw [htr] at htd; simp at htd
    · rw [htr] at htd; simp at htd
    · rw [htr] at htd; simp at htd
    · rw [htr] at htd; simp at htd
  | transcriptionFailed =>
    have htd : s.trDone = false := by simpa [allowed] using hAl
    rcases hInv with ⟨hn, _, hst, htx, han, hpb⟩ |
      ⟨_, htr, _⟩ | ⟨_, htr, _, _, _, _, _⟩ | ⟨_, htr, _⟩ | ⟨_, htr, _⟩ | ⟨_, htr, _⟩
    · subst hn
      rw [step_failed]
      unfold InvState
      refine Or.inr (Or.inl ?_)
      exact ⟨by simp [transcriptionFailedStep], by simp [transcriptionFailedStep],
        by simp [transcriptionFailedStep], by simp [transcriptionFailedStep, htx],
        by simp [transcriptionFailedStep, han], by simp [transcriptionFailedStep, hpb]⟩
    · rw [htr] at htd; simp at htd
    · rw [htr] at htd; simp at htd
    · rw [htr] at htd; simp at htd
    · rw [htr] at htd; simp at htd
    · rw [htr] at htd; simp at htd
  | booksSubmitted body =>
    rcases hInv with ⟨hn, htr, hst, htx, han, hpb⟩ | ⟨hn, htr, hst, htx, han, hpb⟩ |
      ⟨hn, htr, hst, htx, hbooks, han, hpb⟩ | ⟨hn, htr, hst, htt, hpend, han⟩ |
      ⟨hn, htr, hst, han, hpb, htx⟩ | ⟨hn, htr, hst, htt, hpb, han⟩
    · -- class A: no transcript yet, selection stored, no trigger
      subst hn
      have hblock : analysisGuardBlocked s.job.status = false := by
        rw [hst]; exact analysisGuardBlocked_transcribing
      have hnt : transcriptTruthy s.job = false := by simp [transcriptTruthy, htx]
      rw [step_books, booksSelectionPost_idle s body hblock (Or.inl hnt)]
      unfold InvState
      exact Or.inl ⟨by simp, by simp [htr], by simp [hst], by simp [htx],
        by simp [han], by simp [hpb]⟩
    · -- class B: transcription already failed, selection stored, trigger blocked
      subst hn
      have hblock : analysisGuardBlocked s.job.status = true := by
        rw [hst]; exact analysisGuardBlocked_error
      rw [step_books, booksSelectionPost_blocked s body hblock]
      unfold InvState
      exact Or.inr (Or.inl ⟨by simp, by simp [htr], by simp [hst], by simp [htx],
        by simp [han], by simp [hpb]⟩)
    · -- class C: transcribed and idle; the selection may trigger analysis
      subst hn
      have hblock : analysisGuardBlocked s.job.status = false := by
        rw [hst]; exact analysisGuardBlocked_transcribed
      by_cases ht : transcriptTruthy s.job = true
      · by_cases hb : body.getD [] = []
        · rw [step_books, booksSelectionPost_idle s body hblock (Or.inr hb)]
          unfold InvState
          refine Or.inr (Or.inr (Or.inl ?_))
          obtain ⟨t, htv⟩ := htx
          refine ⟨by simp, by simp [htr], by simp [hst], ⟨t, by simp [htv]⟩, ?_,
            by simp [han], by simp [hpb]⟩
          intro _
          simp [hb]
        · rw [step_books, booksSelectionPost_fires s body hblock ht hb]
          unfold InvState
          refine Or.inr (Or.inr (Or.inr (Or.inl ?_)))
          refine ⟨by simp, by simp [htr], by simp, ?_, ?_, by simp [han]⟩
          · rw [transcriptTruthy_congr _ s.job (by simp)]
            exact ht
          · exact ⟨body.getD [], by simp, hb⟩
      · have hnt : transcriptTruthy s.job = false := by
          simpa using ht
        rw [step_books, booksSelectionPost_idle s body hblock (Or.inl hnt)]
        unfold InvState
        refine Or.inr (Or.inr (Or.inl ?_))
        obtain ⟨t, htv⟩ := htx
        refine ⟨by simp, by simp [htr], by simp [hst], ⟨t, by simp [htv]⟩, ?_,
          by simp [han], by simp [hpb]⟩
        intro htt
        rw [transcriptTruthy_congr _ s.job (by simp)] at htt
        simp [htt] at hnt
    · -- class D: analysis in flight; trigger blocked
      subst hn
      have hblock : analysisGuardBlocked s.job.status = true := by
        rw [hst]; exact analysisGuardBlocked_started
      rw [step_books, booksSelectionPost_blocked s body hblock]
      obtain ⟨bs, hbs, hbsne⟩ := hpend
      unfold InvState
      refine Or.inr (Or.inr (Or.inr (Or.inl ?_)))
      refine ⟨by simp, by simp [htr], by simp [hst], ?_, ⟨bs, by simp [hbs], hbsne⟩,
        by simp [han]⟩
      rw [transcriptTruthy_congr _ s.job (by simp)]
      exact htt
    · -- class E: finished; trigger blocked
      subst hn
      have hblock : analysisGuardBlocked s.job.status = true := by
        rw [hst]; exact analysisGuardBlocked_finished
      rw [step_books, booksSelectionPost_blocked s body hblock]
      obtain ⟨r, hr⟩ := han
      unfold InvState
      refine Or.inr (Or.inr (Or.inr (Or.inr (Or.inl ?_))))
      exact ⟨by simp, by simp [htr], by simp [hst], ⟨r, by simp [hr]⟩,
        by simp [hpb], by simp [htx]⟩
    · -- class F: analysis failed; trigger blocked
      subst hn
      have hblock : analysisGuardBlocked s.job.status = true := by
        rw [hst]; exact analysisGuardBlocked_error
      rw [step_books, booksSelectionPost_blocked s body hblock]
      unfold InvState
      refine Or.inr (Or.inr (Or.inr (Or.inr (Or.inr ?_))))
      refine ⟨by simp, by simp [htr], by simp [hst], ?_, by simp [hpb], by simp [han]⟩
      rw [transcriptTruthy_congr _ s.job (by simp)]
      exact htt
  | analysisSettled =>
    have hpend : s.pendingBooks.isSome = true := by simpa [allowed] using hAl
    rcases hInv with ⟨_, _, _, _, _, hpb⟩ | ⟨_, _, _, _, _, hpb⟩ |
      ⟨_, _, _, _, _, _, hpb⟩ | ⟨hn, htr, hst, htt, hpendx, han⟩ |
      ⟨_, _, _, _, hpb, _⟩ | ⟨_, _, _, _, hpb, _⟩
    · rw [hpb] at hpend; simp at hpend
    · rw [hpb] at hpend; simp at hpend
    · rw [hpb] at hpend; simp at hpend
    · -- class D: the in-flight analysis settles
      subst hn
      obtain ⟨bs, hbs, _⟩ := hpendx
      rw [step_settle, settleStep_some env s bs hbs]
      cases hread : readBooks env.fsRead bs with
      | error e =>
        rw [settleAnalysis_read_error env bs s.job e hread]
        unfold InvState
        refine Or.inr (Or.inr (Or.inr (Or.inr (Or.inr ?_))))
        refine ⟨by simp, by simp [htr], ?_, ?_, by simp, ?_⟩
        · cases hfp : s.finallyPending <;> simp [hfp]
        · cases hfp : s.finallyPending
          · simp only [hfp, Bool.false_eq_true, reduceIte]
            rw [transcriptTruthy_congr _ s.job (by simp)]
            exact htt
          · simp only [hfp, reduceIte]
            rw [transcriptTruthy_congr _ s.job (by simp)]
            exact htt
        · cases hfp : s.finallyPending <;> simp [hfp, han]
      | ok ts =>
        cases hresp : getResponse env.provider with
        | none =>
          have hsome := getResponse_isSome env.provider
          rw [hresp] at hsome
          simp at hsome
        | some r =>
          rw [settleAnalysis_ok env bs s.job ts r hread hresp]
          unfold InvState
          refine Or.inr (Or.inr (Or.inr (Or.inr (Or.inl ?_))))
          refine ⟨by simp, by simp [htr], ?_, ?_, by simp, ?_⟩
          · cases hfp : s.finallyPending <;> simp [hfp]
          · exact ⟨r, by cases hfp : s.finallyPending <;> simp [hfp]⟩
          · cases hfp : s.finallyPending <;> simp [hfp]
    · rw [hpb] at hpend; simp at hpend
    · rw [hpb] at hpend; simp at hpend

/-- The freshly created job satisfies the invariant with zero submissions. -/
theorem invState_init (tok fp : String) : InvState (initSys tok fp) 0 := by
  unfold InvState
  exact Or.inl ⟨rfl, rfl, rfl, rfl, rfl, rfl⟩

/-- Running a valid trace preserves the invariant, accumulating submissions. -/
theorem invState_run (env : Env) :
    ∀ (tr : List Event) (s : Sys) (n : Nat), InvState s n →
      validTrace env s tr = true →
      InvState (runJob env s tr).1 (n + (runJob env s tr).2) := by
  intro tr
  induction tr with
  | nil => intro s n h _; simpa [runJob] using h
  | cons e es ih =>
    intro s n h hv
    simp only [validTrace, Bool.and_eq_true] at hv
    have hstep := invState_step env s n e h hv.1
    have hrec := ih (step env s e).1 _ hstep hv.2
    simp only [runJob]
    have : n + ((if (step env s e).2 then 1 else 0) + (runJob env (step env s e).1 es).2)
        = (n + (if (step env s e).2 then 1 else 0)) + (runJob env (step env s e).1 es).2 := by
      omega
    rw [this]
    exact hrec

theorem invState_le_one (s : Sys) (n : Nat) (h : InvState s n) : n ≤ 1 := by
  unfold InvState at h
  rcases h with ⟨hn, _⟩ | ⟨hn, _⟩ | ⟨hn, _⟩ | ⟨hn, _⟩ | ⟨hn, _⟩ | ⟨hn, _⟩ <;> omega

/-- In an invariant state, `ready` forces the submission counter to be 1:
before any submission either the transcript is missing (or empty) or the
book list is empty. -/
theorem invState_ready_count (s : Sys) (n : Nat) (h : InvState s n)
    (hr : ready s.job = true) : n = 1 := by
  obtain ⟨htt, hbs⟩ := ready_true_elim hr
  unfold InvState at h
  rcases h with ⟨_, _, _, htx, _, _⟩ | ⟨_, _, _, htx, _, _⟩ |
    ⟨_, _, _, _, hbooks, _, _⟩ | ⟨hn, _⟩ | ⟨hn, _⟩ | ⟨hn, _⟩
  · simp [transcriptTruthy, htx] at htt
  · simp [transcriptTruthy, htx] at htt
  · exact absurd (hbooks htt) hbs
  · exact hn
  · exact hn
  · exact hn

/-- The analysis field is populated exactly in the `finished` state. -/
theorem invState_analysis_iff (s : Sys) (n : Nat) (h : InvState s n) :
    (s.job.analysis.isSome = true ↔ s.job.status = .finished) := by
  unfold InvState at h
  rcases h with ⟨_, _, hst, _, han, _⟩ | ⟨_, _, hst, _, han, _⟩ |
    ⟨_, _, hst, _, _, han, _⟩ | ⟨_, _, hst, _, _, han⟩ |
    ⟨_, _, hst, han, _, _⟩ | ⟨_, _, hst, _, _, han⟩
  · simp [han, hst]
  · simp [han, hst]
  · simp [han, hst]
  · simp [han, hst]
  · obtain ⟨r, hr⟩ := han
    simp [hr, hst]
  · simp [han, hst]

theorem ready_intro (j : Job) (h1 : transcriptTruthy j = true)
    (h2 : j.selectedBooks ≠ []) : ready j = true := by
  simp [ready, h1, h2]

/-- A turn that submits an analysis leaves the job satisfying the trigger
condition: non-empty transcript and non-empty book list. -/
theorem step_fired_ready (env : Env) (s : Sys) (e : Event)
    (h : (step env s e).2 = true) : ready (step env s e).1.job = true := by
  cases e with
  | transcriptionDone text =>
    rcases Decidable.em (text = "" ∨ s.job.selectedBooks = []) with hc | hc
    · rw [step_done, transcriptionDoneStep_idle s text hc] at h
      simp at h
    · push_neg at hc
      rw [step_done, transcriptionDoneStep_fires s text hc.1 hc.2]
      refine ready_intro _ ?_ ?_
      · rw [transcriptTruthy_val _ text (by simp)]
        simp [hc.1]
      · simp [hc.2]
  | transcriptionFailed =>
    rw [step_failed, transcriptionFailedStep] at h
    simp at h
  | booksSubmitted body =>
    by_cases hbl : analysisGuardBlocked s.job.status = true
    · rw [step_books, booksSelectionPost_blocked s body hbl] at h
      simp at h
    · have hbl' : analysisGuardBlocked s.job.status = false := by simpa using hbl
      by_cases ht : transcriptTruthy s.job = true
      · by_cases hb : body.getD [] = []
        · rw [step_books, booksSelectionPost_idle s body hbl' (Or.inr hb)] at h
          simp at h
        · rw [step_books, booksSelectionPost_fires s body hbl' ht hb]
          refine ready_intro _ ?_ ?_
          · rw [transcriptTruthy_congr _ s.job (by simp)]
            exact ht
          · simp [hb]
      · have hnt : transcriptTruthy s.job = false := by simpa using ht
        rw [step_books, booksSelectionPost_idle s body hbl' (Or.inl hnt)] at h
        simp at h
  | analysisSettled =>
    cases hpb : s.pendingBooks with
    | none => rw [step_settle, settleStep_none env s hpb] at h; simp at h
    | some bs => rw [step_settle, settleStep_some env s bs hpb] at h; simp at h

theorem runJob_append (env : Env) :
    ∀ (p q : List Event) (s : Sys),
      runJob env s (p ++ q) =
        ((runJob env (runJob env s p).1 q).1,
          (runJob env s p).2 + (runJob env (runJob env s p).1 q).2) := by
  intro p
  induction p with
  | nil => intro q s; simp [runJob]
  | cons e es ih =>
    intro q s
    show ((runJob env (step env s e).1 (es ++ q)).1,
        (if (step env s e).2 then 1 else 0) + (runJob env (step env s e).1 (es ++ q)).2)
      = ((runJob env (runJob env (step env s e).1 es).1 q).1,
        ((if (step env s e).2 then 1 else 0) + (runJob env (step env s e).1 es).2)
          + (runJob env (runJob env (step env s e).1 es).1 q).2)
    rw [ih]
    simp [Nat.add_assoc]

theorem validTrace_append (env : Env) :
    ∀ (p q : List Event) (s : Sys),
      validTrace env s (p ++ q) =
        (validTrace env s p && validTrace env (runJob env s p).1 q) := by
  intro p
  induction p with
  | nil => intro q s; simp [validTrace, runJob]
  | cons e es ih =>
    intro q s
    show (allowed s e && validTrace env (step env s e).1 (es ++ q)) =
      ((allowed s e && validTrace env (step env s e).1 es) &&
        validTrace env (runJob env (step env s e).1 es).1 q)
    rw [ih, Bool.and_assoc]

/-- If a valid run from a pre-submission state makes exactly one submission,
the trace splits at a point where the job satisfies the trigger condition. -/
theorem run_count_one_split (env : Env) :
    ∀ (tr : List Event) (s : Sys), InvState s 0 → validTrace env s tr = true →
      (runJob env s tr).2 = 1 →
      ∃ p q, tr = p ++ q ∧ ready ((runJob env s p).1.job) = true := by
  intro tr
  induction tr with
  | nil => intro s _ _ hc; simp [runJob] at hc
  | cons e es ih =>
    intro s hInv hv hc
    simp only [validTrace, Bool.and_eq_true] at hv
    by_cases hf : (step env s e).2 = true
    · refine ⟨[e], es, rfl, ?_⟩
      have := step_fired_ready env s e hf
      simpa [runJob] using this
    · have hf' : (step env s e).2 = false := by simpa using hf
      have hInv' : InvState (step env s e).1 0 := by
        have hh := invState_step env s 0 e hInv hv.1
        simpa [hf'] using hh
      have hc' : (runJob env (step env s e).1 es).2 = 1 := by
        simp only [runJob, hf', if_false] at hc
        simpa using hc
      obtain ⟨p, q, hpq, hr⟩ := ih (step env s e).1 hInv' hv.2 hc'
      refine ⟨e :: p, q, by rw [hpq, List.cons_append], ?_⟩
      simpa [runJob] using hr

/-- Once a job is in the error state, every later allowed event is a book
selection, makes no adapter submission, and leaves the status at `error`. -/
theorem invState_error_run (env : Env) :
    ∀ (tr : List Event) (s : Sys) (n : Nat), InvState s n → s.job.status = .error →
      validTrace env s tr = true →
      (runJob env s tr).1.job.status = .error ∧ (runJob env s tr).2 = 0 ∧
        ∀ e ∈ tr, ∃ b, e = Event.booksSubmitted b := by
  intro tr
  induction tr with
  | nil =>
    intro s n _ herr _
    exact ⟨by simpa [runJob] using herr, by simp [runJob], by simp⟩
  | cons e es ih =>
    intro s n hInv herr hv
    simp only [validTrace, Bool.and_eq_true] at hv
    have hfacts : s.trDone = true ∧ s.pendingBooks = none := by
      unfold InvState at hInv
      rcases hInv with ⟨_, _, hst, _⟩ | ⟨_, htr, hst, _, _, hpb⟩ | ⟨_, _, hst, _⟩ |
        ⟨_, _, hst, _⟩ | ⟨_, _, hst, _⟩ | ⟨_, htr, hst, _, hpb, _⟩
      · rw [herr] at hst; simp at hst
      · exact ⟨htr, hpb⟩
      · rw [herr] at hst; simp at hst
      · rw [herr] at hst; simp at hst
      · rw [herr] at hst; simp at hst
      · exact ⟨htr, hpb⟩
    cases e with
    | transcriptionDone text =>
      have : allowed s (.transcriptionDone text) = false := by
        simp [allowed, hfacts.1]
      rw [this] at hv
      simp at hv
    | transcriptionFailed =>
      have : allowed s .transcriptionFailed = false := by
        simp [allowed, hfacts.1]
      rw [this] at hv
      simp at hv
    | analysisSettled =>
      have : allowed s .analysisSettled = false := by
        simp [allowed, hfacts.2]
      rw [this] at hv
      simp at hv
    | booksSubmitted body =>
      have hblock : analysisGuardBlocked s.job.status = true := by
        rw [herr]; exact analysisGuardBlocked_error
      have hst' : (step env s (.booksSubmitted body)).1.job.status = .error := by
        rw [step_books, booksSelectionPost_blocked s body hblock]
        simpa using herr
      have hfired : (step env s (.booksSubmitted body)).2 = false := by
        rw [step_books, booksSelectionPost_blocked s body hblock]
      have hInv' := invState_step env s n _ hInv hv.1
      rw [hfired] at hInv'
      simp only [Bool.false_eq_true, if_false, Nat.add_zero] at hInv'
      obtain ⟨h1, h2, h3⟩ := ih (step env s (.booksSubmitted body)).1 n hInv' hst' hv.2
      refine ⟨by simpa [runJob] using h1, ?_, ?_⟩
      · simp only [runJob, hfired]
        simpa using h2
      · intro e' he'
        rcases List.mem_cons.mp he' with he' | he'
        · exact ⟨body, he'⟩
        · exact h3 e' he'

theorem statusStep_rank {a b : JStatus} (h : StatusStep a b) :
    statusRank a < statusRank b := by
  cases h <;> decide

theorem statusReach_rank {a b : JStatus}
    (h : Relation.ReflTransGen StatusStep a b) : statusRank a ≤ statusRank b := by
  induction h with
  | refl => exact Nat.le_refl _
  | tail h1 h2 ih => exact Nat.le_trans ih (Nat.le_of_lt (statusStep_rank h2))

/-- A single allowed turn moves the status only along the forward lattice
(possibly through an intermediate state, as when transcription completion
immediately triggers analysis). -/
theorem step_statusReach (env : Env) (s : Sys) (n : Nat) (e : Event)
    (hInv : InvState s n) (hAl : allowed s e = true) :
    Relation.ReflTransGen StatusStep s.job.status (step env s e).1.job.status := by
  unfold InvState at hInv
  cases e with
  | transcriptionDone text =>
    have htd : s.trDone = false := by simpa [allowed] using hAl
    rcases hInv with ⟨hn, _, hst, htx, han, hpb⟩ |
      ⟨_, htr, _⟩ | ⟨_, htr, _, _, _, _, _⟩ | ⟨_, htr, _⟩ | ⟨_, htr, _⟩ | ⟨_, htr, _⟩
    · rcases Decidable.em (text = "" ∨ s.job.selectedBooks = []) with hcase | hcase
      · rw [step_done, transcriptionDoneStep_idle s text hcase, hst]
        exact Relation.ReflTransGen.single StatusStep.toTranscribed
      · push_neg at hcase
        rw [step_done, transcriptionDoneStep_fires s text hcase.1 hcase.2, hst]
        exact Relation.ReflTransGen.head StatusStep.toTranscribed
          (Relation.ReflTransGen.single StatusStep.toAnalysis)
    · rw [htr] at htd; simp at htd
    · rw [htr] at htd; simp at htd
    · rw [htr] at htd; simp at htd
    · rw [htr] at htd; simp at htd
    · rw [htr] at htd; simp at htd
  | transcriptionFailed =>
    have htd : s.trDone = false := by simpa [allowed] using hAl
    rcases hInv with ⟨hn, _, hst, htx, han, hpb⟩ |
      ⟨_, htr, _⟩ | ⟨_, htr, _, _, _, _, _⟩ | ⟨_, htr, _⟩ | ⟨_, htr, _⟩ | ⟨_, htr, _⟩
    · rw [step_failed, hst]
      exact Relation.ReflTransGen.single StatusStep.transcribingErr
    · rw [htr] at htd; simp at htd
    · rw [htr] at htd; simp at htd
    · rw [htr] at htd; simp at htd
    · rw [htr] at htd; simp at htd
    · rw [htr] at htd; simp at htd
  | booksSubmitted body =>
    by_cases hbl : analysisGuardBlocked s.job.status = true
    · rw [step_books, booksSelectionPost_blocked s body hbl]
    · have hbl' : analysisGuardBlocked s.job.status = false := by simpa using hbl
      by_cases ht : transcriptTruthy s.job = true
      · by_cases hb : body.getD [] = []
        · rw [step_books, booksSelectionPost_idle s body hbl' (Or.inr hb)]
        · -- the submission fires: only possible from `transcribed`
          rw [step_books, booksSelectionPost_fires s body hbl' ht hb]
          rcases hInv with ⟨_, _, _, htx, _, _⟩ | ⟨_, _, hst, _, _, _⟩ |
            ⟨_, _, hst, _, _, _, _⟩ | ⟨_, _, hst, _, _, _⟩ |
            ⟨_, _, hst, _, _, _⟩ | ⟨_, _, hst, _, _, _⟩
          · simp [transcriptTruthy, htx] at ht
          · rw [hst] at hbl'; simp [analysisGuardBlocked_error] at hbl'
          · rw [hst]
            exact Relation.ReflTransGen.single StatusStep.toAnalysis
          · rw [hst] at hbl'; simp [analysisGuardBlocked_started] at hbl'
          · rw [hst] at hbl'; simp [analysisGuardBlocked_finished] at hbl'
          · rw [hst] at hbl'; simp [analysisGuardBlocked_error] at hbl'
      · have hnt : transcriptTruthy s.job = false := by simpa using ht
        rw [step_books, booksSelectionPost_idle s body hbl' (Or.inl hnt)]
  | analysisSettled =>
    have hpend : s.pendingBooks.isSome = true := by simpa [allowed] using hAl
    rcases hInv with ⟨_, _, _, _, _, hpb⟩ | ⟨_, _, _, _, _, hpb⟩ |
      ⟨_, _, _, _, _, _, hpb⟩ | ⟨hn, htr, hst, htt, hpendx, han⟩ |
      ⟨_, _, _, _, hpb, _⟩ | ⟨_, _, _, _, hpb, _⟩
    · rw [hpb] at hpend; simp at hpend
    · rw [hpb] at hpend; simp at hpend
    · rw [hpb] at hpend; simp at hpend
    · obtain ⟨bs, hbs, _⟩ := hpendx
      rw [step_settle, settleStep_some env s bs hbs, hst]
      cases hread : readBooks env.fsRead bs with
      | error e =>
        rw [settleAnalysis_read_error env bs s.job e hread]
        cases hfp : s.finallyPending
        · simp only [hfp, Bool.false_eq_true, reduceIte]
          exact Relation.ReflTransGen.single StatusStep.analysisErr
        · simp only [hfp, reduceIte]
          exact Relation.ReflTransGen.single StatusStep.analysisErr
      | ok ts =>
        cases hresp : getResponse env.provider with
        | none =>
          have hsome := getResponse_isSome env.provider
          rw [hresp] at hsome
          simp at hsome
        | some r =>
          rw [settleAnalysis_ok env bs s.job ts r hread hresp]
          cases hfp : s.finallyPending
          · simp only [hfp, Bool.false_eq_true, reduceIte]
            exact Relation.ReflTransGen.single StatusStep.toFinished
          · simp only [hfp, reduceIte]
            exact Relation.ReflTransGen.single StatusStep.toFinished
    · rw [hpb] at hpend; simp at hpend
    · rw [hpb] at hpend; simp at hpend

/-- Along any valid trace, the status only moves forward along the lattice. -/
theorem run_statusReach (env : Env) :
    ∀ (tr : List Event) (s : Sys) (n : Nat), InvState s n →
      validTrace env s tr = true →
      Relation.ReflTransGen StatusStep s.job.status (runJob env s tr).1.job.status := by
  intro tr
  induction tr with
  | nil => intro s n _ _; exact Relation.ReflTransGen.refl
  | cons e es ih =>
    intro s n hInv hv
    simp only [validTrace, Bool.and_eq_true] at hv
    have h1 := step_statusReach env s n e hInv hv.1
    have hInv' := invState_step env s n e hInv hv.1
    have h2 := ih (step env s e).1 _ hInv' hv.2
    exact Relation.ReflTransGen.trans h1 h2

/-- The `created` status never occurs in a reachable state. -/
theorem invState_not_created (s : Sys) (n : Nat) (h : InvState s n) :
    s.job.status ≠ .created := by
  unfold InvState at h
  rcases h with ⟨_, _, hst, _⟩ | ⟨_, _, hst, _⟩ | ⟨_, _, hst, _⟩ |
    ⟨_, _, hst, _⟩ | ⟨_, _, hst, _⟩ | ⟨_, _, hst, _⟩ <;> simp [hst]

/-! ### Helper lemmas about cleanup and the selection handler -/

theorem settleAnalysis_filePath (env : Env) (bs : List Book) (j : Job) :
    (settleAnalysis env bs j).filePath = j.filePath := by
  unfold settleAnalysis
  cases readBooks env.fsRead bs with
  | error e => simp
  | ok ts =>
    cases getResponse env.provider with
    | some r => simp
    | none => simp

theorem tryStartAnalysis_filePath (s : Sys) :
    (tryStartAnalysis s).1.job.filePath = s.job.filePath := by
  unfold tryStartAnalysis
  by_cases h1 : analysisGuardBlocked s.job.status = true
  · simp [h1]
  · by_cases h2 : ready s.job = true
    · simp [h1, h2]
    · simp [h1, h2]

theorem tryStartAnalysis_books (s : Sys) :
    (tryStartAnalysis s).1.job.selectedBooks = s.job.selectedBooks := by
  unfold tryStartAnalysis
  by_cases h1 : analysisGuardBlocked s.job.status = true
  · simp [h1]
  · by_cases h2 : ready s.job = true
    · simp [h1, h2]
    · simp [h1, h2]

theorem tryStartAnalysis_fired (s : Sys) (h : (tryStartAnalysis s).2 = true) :
    ready s.job = true := by
  unfold tryStartAnalysis at h
  by_cases h1 : analysisGuardBlocked s.job.status = true
  · simp [h1] at h
  · by_cases h2 : ready s.job = true
    · exact h2
    · simp [h1, h2] at h

theorem startTailTry_filePath (env : Env) (s : Sys) (g : Except String String) :
    (startTailTry env s g).job.filePath = s.job.filePath := by
  cases g with
  | error msg => simp [startTailTry]
  | ok text =>
    simp only [startTailTry]
    by_cases hf : (tryStartAnalysis
        { s with job := { s.job with transcript := some text, status := .transcribed },
                 trDone := true } : Sys × Bool).2 = true
    · simp only [hf, if_true]
      cases hpb : (tryStartAnalysis
          { s with job := { s.job with transcript := some text, status := .transcribed },
                   trDone := true }).1.pendingBooks with
      | none =>
        simp only [hpb]
        rw [tryStartAnalysis_filePath]
      | some bs =>
        simp only [hpb]
        rw [settleAnalysis_filePath, tryStartAnalysis_filePath]
    · have hf' : (tryStartAnalysis
          { s with job := { s.job with transcript := some text, status := .transcribed },
                   trDone := true } : Sys × Bool).2 = false := by simpa using hf
      simp only [hf', Bool.false_eq_true, if_false]
      rw [tryStartAnalysis_filePath]

theorem finallyCleanup_found (disk : List String) (j : Job) (p : String)
    (hfp : j.filePath = some p) (hdisk : p ∈ disk) :
    finallyCleanup disk j =
      ({ j with filePath := none }, disk.filter (fun q => q != p), false) := by
  simp [finallyCleanup, hfp, hdisk]

theorem finallyCleanup_missing (disk : List String) (j : Job) (p : String)
    (hfp : j.filePath = some p) (hdisk : p ∉ disk) :
    finallyCleanup disk j = (j, disk, true) := by
  simp [finallyCleanup, hfp, hdisk]

/-! ### Claim theorems -/

/-- C4: the Access Control Gate resolves the job if and only if the bearer
credential exactly matches that job's access secret; a known job with a
missing or mismatched credential always yields forbidden (never not-found),
and an unknown or evicted job identifier always yields not-found regardless
of the credential supplied. -/
theorem authorizeJob_resolves_iff_token (store : String → Option Job)
    (jobId : String) (h : Option String) :
    (authorizeJob store jobId h = .notFound ↔ store jobId = none) ∧
    (∀ j, store jobId = some j →
      ((authorizeJob store jobId h = .ok j ↔
          h = some ("Bearer " ++ j.accessToken)) ∧
        (h ≠ some ("Bearer " ++ j.accessToken) →
          authorizeJob store jobId h = .forbidden))) := by
  constructor
  · cases hs : store jobId with
    | none => simp [authorizeJob, hs]
    | some j =>
      simp only [authorizeJob, hs]
      cases h with
      | none => simp
      | some hd => by_cases he : hd = "Bearer " ++ j.accessToken <;> simp [he]
  · intro j hj
    constructor
    · simp only [authorizeJob, hj]
      cases h with
      | none => simp
      | some hd => by_cases he : hd = "Bearer " ++ j.accessToken <;> simp [he]
    · intro hne
      simp only [authorizeJob, hj]
      cases h with
      | none => rfl
      | some hd =>
        have hx : hd ≠ "Bearer " ++ j.accessToken := by
          intro hx
          exact hne (by rw [hx])
        simp [hx]

/-- Witness for C4 at a concrete store, job id and matching header. -/
theorem authorizeJob_resolves_iff_token_witness :
    (authorizeJob storeCex "job-1" (some "Bearer tok") = .notFound ↔
      storeCex "job-1" = none) ∧
    (∀ j, storeCex "job-1" = some j →
      ((authorizeJob storeCex "job-1" (some "Bearer tok") = .ok j ↔
          some "Bearer tok" = some ("Bearer " ++ j.accessToken)) ∧
        (some "Bearer tok" ≠ some ("Bearer " ++ j.accessToken) →
          authorizeJob storeCex "job-1" (some "Bearer tok") = .forbidden))) :=
  authorizeJob_resolves_iff_token storeCex "job-1" (some "Bearer tok")

/-- C7: the transcription polling loop always reaches an outcome within
`timeoutS / 7 + 1` polls (the fuel suffices, so the operation never waits
forever), and it times out exactly when no terminal provider status is
observed at any poll whose 7-second-per-tick elapsed time is still within
the deadline. -/
theorem transcribe_polls_until_terminal_or_deadline (details : Nat → RevJobDetails)
    (timeoutS : Nat) :
    (∃ r, generatePoll details timeoutS = some r) ∧
    (generatePoll details timeoutS = some .timedOut ↔
      ∀ k, k ≤ timeoutS / 7 → revTerminal (details k).status = false) := by
  have hfuel : timeoutS < 7 * (0 + generatePollFuel timeoutS) := by
    simp only [generatePollFuel]
    omega
  constructor
  · have h := pollLoop_total details timeoutS (generatePollFuel timeoutS) 0
      (by omega) hfuel
    cases hg : pollLoop details timeoutS (generatePollFuel timeoutS) 0 with
    | none => rw [hg] at h; simp at h
    | some r => exact ⟨r, hg⟩
  · constructor
    · intro h k hk
      exact pollLoop_timeout_no_terminal details timeoutS (generatePollFuel timeoutS)
        0 h k (Nat.zero_le k) hk
    · intro h
      exact pollLoop_timeout_of_no_terminal details timeoutS h
        (generatePollFuel timeoutS) 0 (by omega) hfuel

/-- Witness for C7: a provider that never reaches a terminal status, with a
14-second deadline. -/
theorem transcribe_polls_witness :
    (∃ r, generatePoll (fun _ => ⟨"in_progress", none, none⟩) 14 = some r) ∧
    (generatePoll (fun _ => ⟨"in_progress", none, none⟩) 14 = some .timedOut ↔
      ∀ k, k ≤ 14 / 7 →
        revTerminal ((fun _ => (⟨"in_progress", none, none⟩ : RevJobDetails)) k).status
          = false) :=
  transcribe_polls_until_terminal_or_deadline (fun _ => ⟨"in_progress", none, none⟩) 14

/-- C1 counterexample: with every credential in the pool failing (here all six
keys fail with "quota exceeded") and the book reads succeeding, the analysis
stage does NOT put the job into `error` with the generic message and an absent
report.  Instead `getResponse` returns an in-band error object, so the job
finishes: status `finished`, the `analysis` field holds the provider failure
detail, and the generic analysis-error message is never set. -/
theorem analysis_pool_exhausted_cex :
    (settleAnalysis envAllFail [bookX] jobCex).status = .finished ∧
    (settleAnalysis envAllFail [bookX] jobCex).status ≠ .error ∧
    (settleAnalysis envAllFail [bookX] jobCex).error ≠
      some "An error occurred during AI analysis." ∧
    (settleAnalysis envAllFail [bookX] jobCex).analysis =
      some { response := none, error := some "Gemini API error: quota exceeded" } ∧
    (statusEndpoint (settleAnalysis envAllFail [bookX] jobCex)).analysis ≠ none := by
  decide

/-- C1 (amended): when every credential in the Analysis Adapter's pool fails
and the book reads succeed, `getResponse` returns `{ response: null, error:
"Gemini API error: <last attempt's message>" }` instead of throwing; the job
therefore ends in status `finished` with that object stored as its report,
the job's `error` field is left unchanged (no generic analysis-error message
is set), and the provider failure detail is exposed through the `analysis`
field of the status interface. -/
theorem analysis_pool_exhausted_finishes_with_detail (env : Env) (bs : List Book)
    (j : Job) (msgs : Nat → String)
    (hall : ∀ i, env.provider i = .error (msgs i))
    (hread : ∀ b ∈ bs, ∃ t, env.fsRead b.text = .ok t) :
    (settleAnalysis env bs j).status = .finished ∧
    (settleAnalysis env bs j).analysis =
      some { response := none, error := some ("Gemini API error: " ++ msgs 5) } ∧
    (settleAnalysis env bs j).error = j.error ∧
    (statusEndpoint (settleAnalysis env bs j)).analysis =
      some { response := none, error := some ("Gemini API error: " ++ msgs 5) } := by
  obtain ⟨ts, hts⟩ := readBooks_ok env.fsRead bs hread
  have hresp := getResponse_all_keys_fail env.provider msgs hall
  rw [settleAnalysis_ok env bs j ts _ hts hresp]
  exact ⟨by simp, by simp, by simp, by simp [statusEndpoint]⟩

/-- Witness for C1's amended theorem at the concrete all-failing environment. -/
theorem analysis_pool_exhausted_witness :
    (∀ i, envAllFail.provider i = .error ((fun _ => "quota exceeded") i)) ∧
    (∀ b ∈ [bookX], ∃ t, envAllFail.fsRead b.text = .ok t) ∧
    ((settleAnalysis envAllFail [bookX] jobCex).status = .finished ∧
      (settleAnalysis envAllFail [bookX] jobCex).analysis =
        some { response := none
               error := some ("Gemini API error: " ++ (fun _ => "quota exceeded") 5) } ∧
      (settleAnalysis envAllFail [bookX] jobCex).error = jobCex.error ∧
      (statusEndpoint (settleAnalysis envAllFail [bookX] jobCex)).analysis =
        some { response := none
               error := some ("Gemini API error: " ++ (fun _ => "quota exceeded") 5) }) :=
  ⟨fun _ => rfl, by intro b _; exact ⟨"book text", rfl⟩,
    analysis_pool_exhausted_finishes_with_detail envAllFail [bookX] jobCex
      (fun _ => "quota exceeded") (fun _ => rfl)
      (by intro b _; exact ⟨"book text", rfl⟩)⟩

/-- C2: over any realizable event trace for a job, the analysis stage is
submitted at most once, and it is submitted exactly when, at some point of
the trace, the job simultaneously has a (JS-truthy, i.e. non-empty) transcript
and a non-empty selected-books list.  Further trigger events after
`analysis_started`, `finished` or `error` never cause a second submission. -/
theorem analysis_at_most_once_iff_ready (env : Env) (tok fp : String)
    (tr : List Event)
    (hv : validTrace env (initSys tok fp) tr = true) :
    (runJob env (initSys tok fp) tr).2 ≤ 1 ∧
    ((runJob env (initSys tok fp) tr).2 = 1 ↔
      ∃ p q, tr = p ++ q ∧ ready ((runJob env (initSys tok fp) p).1.job) = true) := by
  have hInv0 := invState_init tok fp
  have hfin := invState_run env tr _ 0 hInv0 hv
  have hle : (runJob env (initSys tok fp) tr).2 ≤ 1 := by
    have hx := invState_le_one _ _ hfin
    omega
  refine ⟨hle, ?_, ?_⟩
  · intro h1
    exact run_count_one_split env tr _ hInv0 hv h1
  · rintro ⟨p, q, rfl, hr⟩
    rw [validTrace_append, Bool.and_eq_true] at hv
    obtain ⟨hvp, hvq⟩ := hv
    have hInvp := invState_run env p _ 0 hInv0 hvp
    have hp1 : (runJob env (initSys tok fp) p).2 = 1 := by
      have hx := invState_ready_count _ _ hInvp hr
      omega
    rw [runJob_append] at hle ⊢
    simp only at hle ⊢
    omega

/-- Witness for C2 at the happy-path trace: books submitted first, then the
transcript arrives (triggering exactly one submission), then the analysis
settles. -/
theorem analysis_at_most_once_witness :
    validTrace envOk (initSys "tok" "up.tmp") traceOk = true ∧
    ((runJob envOk (initSys "tok" "up.tmp") traceOk).2 ≤ 1 ∧
      ((runJob envOk (initSys "tok" "up.tmp") traceOk).2 = 1 ↔
        ∃ p q, traceOk = p ++ q ∧
          ready ((runJob envOk (initSys "tok" "up.tmp") p).1.job) = true)) :=
  ⟨by decide, analysis_at_most_once_iff_ready envOk "tok" "up.tmp" traceOk (by decide)⟩

/-- C3: along any realizable trace, the job's report (`analysis` field) is
present (non-null) exactly when the job's status is `finished`. -/
theorem report_present_iff_finished (env : Env) (tok fp : String)
    (tr : List Event)
    (hv : validTrace env (initSys tok fp) tr = true) :
    ((runJob env (initSys tok fp) tr).1.job.analysis.isSome = true ↔
      (runJob env (initSys tok fp) tr).1.job.status = .finished) :=
  invState_analysis_iff _ _ (invState_run env tr _ 0 (invState_init tok fp) hv)

/-- Witness for C3 at the happy-path trace (which ends `finished` with a
populated report). -/
theorem report_present_iff_finished_witness :
    validTrace envOk (initSys "tok" "up.tmp") traceOk = true ∧
    ((runJob envOk (initSys "tok" "up.tmp") traceOk).1.job.analysis.isSome = true ↔
      (runJob envOk (initSys "tok" "up.tmp") traceOk).1.job.status = .finished) :=
  ⟨by decide, report_present_iff_finished envOk "tok" "up.tmp" traceOk (by decide)⟩

/-- C5: once a job's status is `error`, it is `error` forever: for any valid
continuation of the trace, the status at the end is still `error`, no further
analysis submission (adapter call) is made, and the only events that can even
occur for the job are book-selection requests (in particular no transcription
settlement and no analysis settlement exist to run). -/
theorem error_is_terminal (env : Env) (tok fp : String) (tr1 tr2 : List Event)
    (hv : validTrace env (initSys tok fp) (tr1 ++ tr2) = true)
    (herr : (runJob env (initSys tok fp) tr1).1.job.status = .error) :
    (runJob env (initSys tok fp) (tr1 ++ tr2)).1.job.status = .error ∧
    (runJob env (runJob env (initSys tok fp) tr1).1 tr2).2 = 0 ∧
    ∀ e ∈ tr2, ∃ b, e = Event.booksSubmitted b := by
  rw [validTrace_append, Bool.and_eq_true] at hv
  obtain ⟨hv1, hv2⟩ := hv
  have hInv1 := invState_run env tr1 _ 0 (invState_init tok fp) hv1
  obtain ⟨h1, h2, h3⟩ := invState_error_run env tr2 _ _ hInv1 herr hv2
  refine ⟨?_, h2, h3⟩
  rw [runJob_append]
  exact h1

/-- Witness for C5: transcription fails, then a later book selection arrives;
the job stays in `error` and nothing more is submitted. -/
theorem error_is_terminal_witness :
    validTrace envOk (initSys "tok" "up.tmp")
      ([Event.transcriptionFailed] ++ [Event.booksSubmitted (some [bookX])]) = true ∧
    (runJob envOk (initSys "tok" "up.tmp") [Event.transcriptionFailed]).1.job.status
      = .error ∧
    ((runJob envOk (initSys "tok" "up.tmp")
        ([Event.transcriptionFailed] ++ [Event.booksSubmitted (some [bookX])])).1.job.status
          = .error ∧
      (runJob envOk (runJob envOk (initSys "tok" "up.tmp") [Event.transcriptionFailed]).1
          [Event.booksSubmitted (some [bookX])]).2 = 0 ∧
      ∀ e ∈ [Event.booksSubmitted (some [bookX])], ∃ b, e = Event.booksSubmitted b) :=
  ⟨by decide, by decide,
    error_is_terminal envOk "tok" "up.tmp" [Event.transcriptionFailed]
      [Event.booksSubmitted (some [bookX])] (by decide) (by decide)⟩

/-- C6 counterexample: the claim says a job is created in state `created`;
in the code a job is created directly in state `transcribing` (server.js line
193), so no job record ever carries the `created` status. -/
theorem job_created_in_transcribing_cex :
    (initialJob "tok" "up.tmp").status = .transcribing ∧
    (initialJob "tok" "up.tmp").status ≠ .created := by
  decide

/-- C6 (amended): a job is created directly in status `transcribing` (there
is no observable `created` state), and from then on, along any realizable
trace, the status moves only forward along the lattice
`transcribing → transcribed → analysis_started → finished` with the terminal
`error` reachable from each non-terminal state: between any two points of the
trace the status change is a chain of those elementary transitions, the
status's rank never decreases (so no state is revisited or moved through
backwards), and the status is never `created`. -/
theorem status_forward_lattice (env : Env) (tok fp : String) (tr : List Event)
    (hv : validTrace env (initSys tok fp) tr = true) :
    (initSys tok fp).job.status = .transcribing ∧
    (∀ p q r, tr = p ++ q ++ r →
      Relation.ReflTransGen StatusStep
        ((runJob env (initSys tok fp) p).1.job.status)
        ((runJob env (initSys tok fp) (p ++ q)).1.job.status)) ∧
    (∀ p q r, tr = p ++ q ++ r →
      statusRank ((runJob env (initSys tok fp) p).1.job.status) ≤
        statusRank ((runJob env (initSys tok fp) (p ++ q)).1.job.status)) ∧
    (∀ p q, tr = p ++ q →
      (runJob env (initSys tok fp) p).1.job.status ≠ .created) := by
  have hInv0 := invState_init tok fp
  have hreach : ∀ p q r, tr = p ++ q ++ r →
      Relation.ReflTransGen StatusStep
        ((runJob env (initSys tok fp) p).1.job.status)
        ((runJob env (initSys tok fp) (p ++ q)).1.job.status) := by
    intro p q r hpqr
    subst hpqr
    rw [validTrace_append, Bool.and_eq_true] at hv
    obtain ⟨hvpq, _⟩ := hv
    rw [validTrace_append, Bool.and_eq_true] at hvpq
    obtain ⟨hvp, hvq⟩ := hvpq
    have hInvp := invState_run env p _ 0 hInv0 hvp
    have h := run_statusReach env q _ _ hInvp hvq
    rw [runJob_append]
    exact h
  refine ⟨rfl, hreach, ?_, ?_⟩
  · intro p q r hpqr
    exact statusReach_rank (hreach p q r hpqr)
  · intro p q hpq
    subst hpq
    rw [validTrace_append, Bool.and_eq_true] at hv
    obtain ⟨hvp, _⟩ := hv
    exact invState_not_created _ _ (invState_run env p _ 0 hInv0 hvp)

/-- Witness for C6 at the happy-path trace. -/
theorem status_forward_lattice_witness :
    validTrace envOk (initSys "tok" "up.tmp") traceOk = true ∧
    ((initSys "tok" "up.tmp").job.status = .transcribing ∧
      (∀ p q r, traceOk = p ++ q ++ r →
        Relation.ReflTransGen StatusStep
          ((runJob envOk (initSys "tok" "up.tmp") p).1.job.status)
          ((runJob envOk (initSys "tok" "up.tmp") (p ++ q)).1.job.status)) ∧
      (∀ p q r, traceOk = p ++ q ++ r →
        statusRank ((runJob envOk (initSys "tok" "up.tmp") p).1.job.status) ≤
          statusRank ((runJob envOk (initSys "tok" "up.tmp") (p ++ q)).1.job.status)) ∧
      (∀ p q, traceOk = p ++ q →
        (runJob envOk (initSys "tok" "up.tmp") p).1.job.status ≠ .created)) :=
  ⟨by decide, status_forward_lattice envOk "tok" "up.tmp" traceOk (by decide)⟩

/-- C8: whatever way transcription concludes (success — with or without a
triggered analysis — or failure), if the job still holds its temporary file
and the file exists, the `finally` of the `/start` handler deletes the file
from disk and clears the job's file reference; the release is not limited to
the success path. -/
theorem cleanup_on_every_exit_path (env : Env) (disk : List String) (s : Sys)
    (g : Except String String) (p : String)
    (hfp : s.job.filePath = some p) (hdisk : p ∈ disk) :
    (startTail env disk s g).1.job.filePath = none ∧
    p ∉ (startTail env disk s g).2.1 ∧
    (startTail env disk s g).2.2 = false := by
  have hfp1 : (startTailTry env s g).job.filePath = some p := by
    rw [startTailTry_filePath]
    exact hfp
  show (finallyCleanup disk (startTailTry env s g).job).1.filePath = none ∧
    p ∉ (finallyCleanup disk (startTailTry env s g).job).2.1 ∧
    (finallyCleanup disk (startTailTry env s g).job).2.2 = false
  rw [finallyCleanup_found disk _ p hfp1 hdisk]
  refine ⟨rfl, ?_, rfl⟩
  intro hmem
  simp only [List.mem_filter, bne_iff_ne] at hmem
  exact hmem.2 rfl

/-- Witness for C8: a failed transcription with the file present on disk. -/
theorem cleanup_on_every_exit_path_witness :
    (initSys "tok" "up.tmp").job.filePath = some "up.tmp" ∧
    "up.tmp" ∈ ["up.tmp"] ∧
    ((startTail envOk ["up.tmp"] (initSys "tok" "up.tmp")
        (.error "boom")).1.job.filePath = none ∧
      "up.tmp" ∉ (startTail envOk ["up.tmp"] (initSys "tok" "up.tmp")
        (.error "boom")).2.1 ∧
      (startTail envOk ["up.tmp"] (initSys "tok" "up.tmp") (.error "boom")).2.2
        = false) :=
  ⟨rfl, by decide,
    cleanup_on_every_exit_path envOk ["up.tmp"] (initSys "tok" "up.tmp")
      (.error "boom") "up.tmp" rfl (by decide)⟩

/-- C9 counterexample: when the temporary file is already gone at cleanup
time, the `finally` of `/start` does NOT merely log the failure: the
un-caught `fs.unlink` rejection escapes the handler (fault flag `true`) and
the `filePath = null` line is skipped, leaving the reference set. -/
theorem cleanup_fault_escapes_cex :
    (startTail envOk [] (initSys "tok" "gone.tmp") (.error "boom")).2.2 = true ∧
    (startTail envOk [] (initSys "tok" "gone.tmp") (.error "boom")).1.job.filePath
      = some "gone.tmp" := by
  decide

/-- C9 (amended): a cleanup failure in the TTL-eviction path is caught and
only logged (no fault ever escapes it); but in the post-transcription
`finally`, a failing unlink escapes the handler as an unhandled fault and
leaves the job's file reference set — though it changes nothing else about
the job (the record, including `status`, is returned unchanged by the
cleanup), and it cannot reach the HTTP caller, whose 202 response was already
sent. -/
theorem cleanup_fault_handling :
    (∀ (disk : List String) (p : String), (evictionUnlink disk p).2 = false) ∧
    (∀ (disk : List String) (j : Job) (p : String),
      j.filePath = some p → p ∉ disk →
      finallyCleanup disk j = (j, disk, true)) ∧
    (∀ (env : Env) (disk : List String) (s : Sys) (g : Except String String),
      (startTail env disk s g).2.2 = true →
      (startTail env disk s g).1.job.filePath = s.job.filePath ∧
        s.job.filePath ≠ none) := by
  refine ⟨?_, ?_, ?_⟩
  · intro disk p
    unfold evictionUnlink
    by_cases h : p ∈ disk <;> simp [h]
  · intro disk j p hfp hdisk
    exact finallyCleanup_missing disk j p hfp hdisk
  · intro env disk s g hfault
    cases hfp : (startTailTry env s g).job.filePath with
    | none =>
      have : (startTail env disk s g).2.2 = false := by
        show (finallyCleanup disk (startTailTry env s g).job).2.2 = false
        simp [finallyCleanup, hfp]
      rw [this] at hfault
      simp at hfault
    | some p =>
      by_cases hdisk : p ∈ disk
      · have hff : (startTail env disk s g).2.2 = false := by
          show (finallyCleanup disk (startTailTry env s g).job).2.2 = false
          rw [finallyCleanup_found disk _ p hfp hdisk]
        rw [hff] at hfault
        simp at hfault
      · have hshape : (startTail env disk s g).1.job.filePath =
            (startTailTry env s g).job.filePath := by
          show (finallyCleanup disk (startTailTry env s g).job).1.filePath = _
          rw [finallyCleanup_missing disk _ p hfp hdisk]
        constructor
        · rw [hshape, startTailTry_filePath]
        · rw [← startTailTry_filePath env s g, hfp]
          simp
  -- (the branch where the unlink succeeds cannot have raised the fault)
/-- Witness for C9's amended theorem: a concrete eviction cleanup and a
concrete missing-file `finally` cleanup. -/
theorem cleanup_fault_handling_witness :
    (evictionUnlink ["a.tmp"] "a.tmp").2 = false ∧
    jobMissingFile.filePath = some "gone.tmp" ∧
    ("gone.tmp" ∉ (["b.tmp"] : List String)) ∧
    finallyCleanup ["b.tmp"] jobMissingFile = (jobMissingFile, ["b.tmp"], true) :=
  ⟨cleanup_fault_handling.1 ["a.tmp"] "a.tmp", rfl, by decide,
    cleanup_fault_handling.2.1 ["b.tmp"] jobMissingFile "gone.tmp" rfl (by decide)⟩

/-- C10: an authorized POST to `/booksselection/:jobId` always answers 200,
replaces the job's whole selected-books list with the body's `selectedBooks`
value, and when the field is missing from the body the selection becomes the
empty list, the response is still 200, and the resulting empty selection
triggers no analysis submission. -/
theorem booksselection_replaces_and_200 (s : Sys) (body : Option (List Book)) :
    (booksSelectionPost s body).2.2 = 200 ∧
    (booksSelectionPost s body).1.job.selectedBooks = body.getD [] ∧
    (body = none →
      (booksSelectionPost s body).1.job.selectedBooks = [] ∧
      (booksSelectionPost s body).2.1 = false) := by
  refine ⟨rfl, ?_, ?_⟩
  · show (tryStartAnalysis _).1.job.selectedBooks = _
    rw [tryStartAnalysis_books]
  · intro hb
    subst hb
    constructor
    · show (tryStartAnalysis _).1.job.selectedBooks = _
      rw [tryStartAnalysis_books]
      rfl
    · show (tryStartAnalysis _).2 = false
      by_contra hf
      have hf' : (tryStartAnalysis
          ({ s with job := { s.job with
              selectedBooks := (none : Option (List Book)).getD [] } } : Sys)).2
            = true := by
        simpa using hf
      have hready := tryStartAnalysis_fired _ hf'
      simp [ready] at hready

/-- Witness for C10 with a missing `selectedBooks` field. -/
theorem booksselection_replaces_and_200_witness :
    ((booksSelectionPost (initSys "tok" "up.tmp") none).2.2 = 200 ∧
      (booksSelectionPost (initSys "tok" "up.tmp") none).1.job.selectedBooks
        = (none : Option (List Book)).getD [] ∧
      ((none : Option (List Book)) = none →
        (booksSelectionPost (initSys "tok" "up.tmp") none).1.job.selectedBooks = [] ∧
        (booksSelectionPost (initSys "tok" "up.tmp") none).2.1 = false)) :=
  booksselection_replaces_and_200 (initSys "tok" "up.tmp") none
